import Mathlib

/-!
Verification development for the TPC PID table producer
(`src/Common/TableProducer/PID/pidTPC.cxx`).

The task `tpcPid` resolves, at `init`, which of nine per-species nsigma
tables to produce (from per-species integer flags and the set of input
bindings of the devices of the running workflow), loads a signal and a
sigma parametrization (from a local file when a file path is configured,
from the CCDB otherwise), and, per batch, fills each enabled species'
table with one quantized separation code per input track.

The pieces of the pipeline that live in headers outside this repository
snapshot (`aod::pidutils::packInTable`, the per-species response
`GetSeparation`) are modelled from the design specification; every
definition states its provenance in its doc comment.
-/

namespace PidTPC

/-- The nine particle-mass hypotheses handled by `tpcPid`
(pidTPC.cxx:47-55 declares one `Produces` table per species,
pidTPC.cxx:66-74 one integer `Configurable` flag per species). -/
inductive Species
| el
| mu
| pi
| ka
| pr
| de
| tr
| he
| al
deriving DecidableEq

/-- Particle-name piece appended to the table-name stem, exactly the
string literals passed to `enableFlag` at pidTPC.cxx:96-104. -/
def suffix : Species → String
| Species.el => "El"
| Species.mu => "Mu"
| Species.pi => "Pi"
| Species.ka => "Ka"
| Species.pr => "Pr"
| Species.de => "De"
| Species.tr => "Tr"
| Species.he => "He"
| Species.al => "Al"

/-- Output-table binding name of a species: the string
`table = "pidTPC" + particle` built at pidTPC.cxx:83. -/
def tableName (s : Species) : String := "pidTPC" ++ suffix s

/-- List of all nine species, in the declaration order of the
`Produces` members (pidTPC.cxx:47-55). -/
def allSpecies : List Species :=
[Species.el, Species.mu, Species.pi, Species.ka, Species.pr,
 Species.de, Species.tr, Species.he, Species.al]

/-- The nine per-species integer configuration flags of the `tpcPid`
struct, default `-1` = auto, `0` = off, `1` = on (pidTPC.cxx:66-74). -/
structure Cfg where
pidEl : Int
pidMu : Int
pidPi : Int
pidKa : Int
pidPr : Int
pidDe : Int
pidTr : Int
pidHe : Int
pidAl : Int
deriving DecidableEq

/-- Flag of a given species inside a `Cfg`. -/
def flagOf (c : Cfg) : Species → Int
| Species.el => c.pidEl
| Species.mu => c.pidMu
| Species.pi => c.pidPi
| Species.ka => c.pidKa
| Species.pr => c.pidPr
| Species.de => c.pidDe
| Species.tr => c.pidTr
| Species.he => c.pidHe
| Species.al => c.pidAl

/-- The `enableFlag` lambda of `tpcPid::init` (pidTPC.cxx:82-95): when
the input binding equals `"pidTPC" + particle`, a negative flag is
auto-enabled to `1`, a positive flag is normalized to `1`, and a zero
flag is left at `0` (table disabled); a non-matching binding leaves the
flag untouched. -/
def enableFlag (binding particle : String) (flag : Int) : Int :=
if binding = "pidTPC" ++ particle then
  if flag < 0 then 1 else if 0 < flag then 1 else flag
else flag

/-- One iteration of the inner loop of `tpcPid::init` (pidTPC.cxx:81-105):
a single device input binding is offered to all nine `enableFlag`
calls. -/
def stepInput (c : Cfg) (b : String) : Cfg where
  pidEl := enableFlag b (suffix Species.el) c.pidEl
  pidMu := enableFlag b (suffix Species.mu) c.pidMu
  pidPi := enableFlag b (suffix Species.pi) c.pidPi
  pidKa := enableFlag b (suffix Species.ka) c.pidKa
  pidPr := enableFlag b (suffix Species.pr) c.pidPr
  pidDe := enableFlag b (suffix Species.de) c.pidDe
  pidTr := enableFlag b (suffix Species.tr) c.pidTr
  pidHe := enableFlag b (suffix Species.he) c.pidHe
  pidAl := enableFlag b (suffix Species.al) c.pidAl

/-- Flag-resolution part of `tpcPid::init` (pidTPC.cxx:79-106): the
double loop over `workflows.devices` and `device.inputs`, each input
binding being offered to every species' flag in turn. A workflow is
given as the list of the input-binding lists of its devices. -/
def initCfg (devices : List (List String)) (c : Cfg) : Cfg :=
devices.flatten.foldl stepInput c

/-- Modelled from the spec: the quantization encoder of
`aod::pidutils::packInTable` (called at pidTPC.cxx:154-159; the
function body lives in a header outside this snapshot). Spec 4.3:
`code = round((value - min) / binWidth)`, clamped to `[0, numBins-1]`
with `numBins = (max - min)/binWidth`; here the integer bin count `nb`
is passed explicitly, so the range maximum is `vmin + nb * w`. -/
def encode (v vmin w : ℚ) (nb : ℤ) : ℤ :=
max 0 (min (round ((v - vmin) / w)) (nb - 1))

/-- Modelled from the spec: the decoder half of the quantization codec
(spec 4.3). A code `c` is mapped back to `min + c * binWidth`, the
centre of the interval of values that round to `c`; the spec fixes
`decode` only through the round-trip and boundary-representative
laws. -/
def decode (c : ℤ) (vmin w : ℚ) : ℚ := vmin + (c : ℚ) * w

/-- Modelled from the spec: a track record as far as the response model
reads it (spec 3: inner-trajectory momentum and measured detector
signal). -/
structure Track where
innerMomentum : ℚ
measuredSignal : ℚ
deriving DecidableEq

/-- Modelled from the spec: per-species response evaluation
(`responsePID.GetSeparation(response, trk)` at pidTPC.cxx:153, body in
a header outside this snapshot). Spec 4.2:
`separation = (measuredSignal - signalFn(innerMomentum)) / sigmaFn(innerMomentum)`;
a zero expected sigma, or a non-finite parametrization result
(modelled as `none`), is an evaluation error, never a number. -/
def evaluate (sf sg : ℚ → Option ℚ) (t : Track) : Option ℚ :=
match sf t.innerMomentum, sg t.innerMomentum with
| some sig, some sgm => if sgm = 0 then none else some ((t.measuredSignal - sig) / sgm)
| _, _ => none

/-- The two loaded parametrizations of the `DetectorResponse`, one
signal and one sigma function per species (pidTPC.cxx:57, spec 4.2);
`none` stands for a non-finite evaluation. -/
structure RespParams where
signalFn : Species → ℚ → Option ℚ
sigmaFn : Species → ℚ → Option ℚ

/-- The `makeTable` lambda of `tpcPid::process` (pidTPC.cxx:148-162):
when the species' flag equals `1` the table is filled by appending, for
each track in order, the packed separation of that track; any other
flag value leaves the table untouched (empty). An evaluation error
appends the invalid marker `none` instead of a code. -/
def makeTable (flag : Int) (ev : Track → Option ℚ) (vmin w : ℚ) (nb : ℤ)
    (tracks : List Track) : List (Option ℤ) :=
if flag = 1 then
  tracks.foldl (fun acc t => acc ++ [Option.map (fun sep => encode sep vmin w nb) (ev t)]) []
else []

/-- The per-batch body of `tpcPid::process` (pidTPC.cxx:135-172): each
species' table is the result of `makeTable` on its flag and its
response model. -/
def processTables (c : Cfg) (p : RespParams) (vmin w : ℚ) (nb : ℤ)
    (tracks : List Track) : Species → List (Option ℤ) :=
fun s => makeTable (flagOf c s) (evaluate (p.signalFn s) (p.sigmaFn s)) vmin w nb tracks

/-- The per-batch output bundle: all nine tables are declared as
`Produces` members of the `tpcPid` struct (pidTPC.cxx:47-55) and every
declared table is sent each batch; as the file header states
(pidTPC.cxx:16), "Only the tables for the mass hypotheses requested are
filled, the others are sent empty." -/
def sentTables (c : Cfg) (p : RespParams) (vmin w : ℚ) (nb : ℤ)
    (tracks : List Track) : List (Species × List (Option ℤ)) :=
allSpecies.map (fun s => (s, processTables c p vmin w nb tracks s))

/-- State of the `tpcPid` task: configuration flags, loaded
`DetectorResponse` parametrizations, and the output tables of the last
batch. -/
structure TaskState where
cfg : Cfg
params : RespParams
tables : Species → List (Option ℤ)

/-- `tpcPid::process` as a state transformer (pidTPC.cxx:135-172): the
flags and the `DetectorResponse` are captured by const reference in
`makeTable` and only read; the only write is filling the `Produces`
tables. -/
def processState (st : TaskState) (vmin w : ℚ) (nb : ℤ)
    (tracks : List Track) : TaskState :=
⟨st.cfg, st.params, processTables st.cfg st.params vmin w nb tracks⟩

/-- Which parametrization slot is loaded (`DetectorResponse::kSignal`,
`DetectorResponse::kSigma`, pidTPC.cxx:118-129). -/
inductive Kind
| kSignal
| kSigma
deriving DecidableEq

/-- One parametrization-loading action of `tpcPid::init`: either
`response.LoadParamFromFile(fname, name, kind)` (pidTPC.cxx:118,121) or
`response.LoadParam(kind, ccdb->getForTimeStamp(path, timestamp))`
(pidTPC.cxx:125,129). -/
inductive LoadAction
| fromFile (path name : String) (kind : Kind)
| fromCCDB (path : String) (ts : Int) (kind : Kind)
deriving DecidableEq

/-- Parametrization-loading part of `tpcPid::init` (pidTPC.cxx:115-130):
with a non-empty `param-file` both parametrizations are loaded by name
from that file; with an empty one both are fetched from the CCDB at
`ccdbPath + "/" + name` for the configured timestamp. -/
def loadActions (fname signalname sigmaname ccdbPath : String) (ts : Int) :
    List LoadAction :=
if fname.isEmpty then
  [LoadAction.fromCCDB (ccdbPath ++ "/" ++ signalname) ts Kind.kSignal,
   LoadAction.fromCCDB (ccdbPath ++ "/" ++ sigmaname) ts Kind.kSigma]
else
  [LoadAction.fromFile fname signalname Kind.kSignal,
   LoadAction.fromFile fname sigmaname Kind.kSigma]

/-! ### Helper lemmas on flag resolution -/

/-- `enableFlag` in closed form: a matching binding turns any non-zero
flag into `1` and keeps a zero flag at `0`. -/
lemma enableFlag_eq (b p : String) (f : Int) :
    enableFlag b p f = if b = "pidTPC" ++ p ∧ f ≠ 0 then 1 else f := by
  unfold enableFlag
  by_cases hb : b = "pidTPC" ++ p
  · simp only [hb, if_pos rfl, true_and]
    split_ifs <;> omega
  · simp [hb]

/-- Folding `enableFlag` over a list of input bindings, for one fixed
particle: the flag becomes `1` exactly when its table name occurs among
the bindings and the flag was not zero. -/
lemma foldl_enableFlag (p : String) (inputs : List String) (f : Int) :
    inputs.foldl (fun g b => enableFlag b p g) f =
      if ("pidTPC" ++ p) ∈ inputs ∧ f ≠ 0 then 1 else f := by
  induction inputs generalizing f with
  | nil => simp
  | cons b rest ih =>
    rw [List.foldl_cons, ih, enableFlag_eq]
    by_cases hb : b = "pidTPC" ++ p <;> by_cases hf : f = 0 <;>
      simp [hb, hf, List.mem_cons, eq_comm]

/-- `stepInput` acts pointwise as `enableFlag`. -/
lemma flagOf_stepInput (c : Cfg) (b : String) (s : Species) :
    flagOf (stepInput c b) s = enableFlag b (suffix s) (flagOf c s) := by
  cases s <;> rfl

/-- Folding `stepInput` over a binding list acts pointwise as folding
`enableFlag`. -/
lemma flagOf_foldl (inputs : List String) (c : Cfg) (s : Species) :
    flagOf (inputs.foldl stepInput c) s =
      inputs.foldl (fun g b => enableFlag b (suffix s) g) (flagOf c s) := by
  induction inputs generalizing c with
  | nil => rfl
  | cons b rest ih => rw [List.foldl_cons, List.foldl_cons, ih, flagOf_stepInput]

/-- Closed form of flag resolution at `init`: a species' flag becomes
`1` exactly when its table name occurs among the workflow inputs and
the configured flag was not `0`; otherwise it keeps its configured
value. -/
lemma flagOf_initCfg (devices : List (List String)) (c : Cfg) (s : Species) :
    flagOf (initCfg devices c) s =
      if tableName s ∈ devices.flatten ∧ flagOf c s ≠ 0 then 1 else flagOf c s := by
  rw [initCfg, flagOf_foldl, foldl_enableFlag]
  rfl

/-! ### Helper lemmas on table filling -/

/-- Appending one element at a time from the left is a map. -/
lemma foldl_concat_eq_map {α β : Type} (f : α → β) (l : List α) (acc : List β) :
    l.foldl (fun a t => a ++ [f t]) acc = acc ++ l.map f := by
  induction l generalizing acc with
  | nil => simp
  | cons t rest ih => simp [List.foldl_cons, ih]

/-- An enabled table is the map of packed evaluations over the batch. -/
lemma makeTable_one (ev : Track → Option ℚ) (vmin w : ℚ) (nb : ℤ)
    (tracks : List Track) :
    makeTable 1 ev vmin w nb tracks =
      tracks.map (fun t => Option.map (fun sep => encode sep vmin w nb) (ev t)) := by
  rw [makeTable, if_pos rfl, foldl_concat_eq_map, List.nil_append]

/-- A table whose flag is anything but `1` stays empty. -/
lemma makeTable_ne_one (flag : Int) (h : flag ≠ 1) (ev : Track → Option ℚ)
    (vmin w : ℚ) (nb : ℤ) (tracks : List Track) :
    makeTable flag ev vmin w nb tracks = [] := by
  rw [makeTable, if_neg h]

/-- Every species occurs in `allSpecies`. -/
lemma mem_allSpecies (s : Species) : s ∈ allSpecies := by
  cases s <;> simp [allSpecies]

/-! ### Helper lemmas on the codec -/

/-- A nonnegative argument rounds to a nonnegative integer. -/
lemma round_nonneg {x : ℚ} (h : 0 ≤ x) : 0 ≤ round x := by
  rw [round_eq]
  exact Int.floor_nonneg.mpr (by linarith)

/-- An argument at most `nb` rounds to at most `nb`: the round can
overshoot by at most one half. -/
lemma round_le_int {x : ℚ} {nb : ℤ} (h : x ≤ (nb : ℚ)) : round x ≤ nb := by
  rw [round_eq]
  have h2 : (⌊x + 1 / 2⌋ : ℚ) ≤ x + 1 / 2 := Int.floor_le _
  have h3 : (⌊x + 1 / 2⌋ : ℚ) < (nb : ℚ) + 1 := by linarith
  exact_mod_cast Int.lt_add_one_iff.mp (by exact_mod_cast h3)

/-- A nonpositive argument rounds to at most `0`. -/
lemma round_nonpos {x : ℚ} (h : x ≤ 0) : round x ≤ 0 := by
  have h0 : round x ≤ (0 : ℤ) := round_le_int (by exact_mod_cast h)
  exact h0

/-- The evaluation error cases of the response model: a vanishing
expected sigma or a non-finite parametrization value make the
separation unavailable. -/
lemma evaluate_none {sf sg : ℚ → Option ℚ} {t : Track}
    (h : sg t.innerMomentum = some 0 ∨ sf t.innerMomentum = none
         ∨ sg t.innerMomentum = none) :
    evaluate sf sg t = none := by
  rcases h with h | h | h
  · cases hsf : sf t.innerMomentum <;> simp [evaluate, hsf, h]
  · simp [evaluate, h]
  · cases hsf : sf t.innerMomentum <;> simp [evaluate, hsf, h]

/-- An enabled species' table is the map of packed evaluations. -/
lemma processTables_enabled (c : Cfg) (p : RespParams) (vmin w : ℚ) (nb : ℤ)
    (tracks : List Track) (s : Species) (hs : flagOf c s = 1) :
    processTables c p vmin w nb tracks s =
      tracks.map (fun t => Option.map (fun sep => encode sep vmin w nb)
        (evaluate (p.signalFn s) (p.sigmaFn s) t)) := by
  show makeTable (flagOf c s) _ _ _ _ _ = _
  rw [hs, makeTable_one]

/-! ### Concrete instances used by witnesses and counterexamples -/

/-- Configuration with all nine flags at their default auto value `-1`. -/
def allAuto : Cfg := ⟨-1, -1, -1, -1, -1, -1, -1, -1, -1⟩

/-- Configuration with every flag forced off. -/
def cfgOff : Cfg := ⟨0, 0, 0, 0, 0, 0, 0, 0, 0⟩

/-- Configuration with the kaon flag forced on, everything else off. -/
def cfgKaOn : Cfg := ⟨0, 0, 0, 1, 0, 0, 0, 0, 0⟩

/-- Configuration with the kaon flag at the out-of-range value `2`. -/
def cfgKa2 : Cfg := ⟨0, 0, 0, 2, 0, 0, 0, 0, 0⟩

/-- A one-device workflow demanding only the kaon table. -/
def demandKa : List (List String) := [["pidTPCKa"]]

/-- A one-device workflow demanding only the electron table. -/
def demandEl : List (List String) := [["pidTPCEl"]]

/-- Response parametrizations with expected signal `0` and expected
sigma `1` everywhere. -/
def pZero : RespParams := ⟨fun _ _ => some 0, fun _ _ => some 1⟩

/-- Response parametrizations whose expected sigma vanishes at inner
momentum `1` and is `1` elsewhere. -/
def pBad : RespParams :=
⟨fun _ _ => some 0, fun _ q => if q = 1 then some 0 else some 1⟩

/-- A two-track batch: inner momenta `1` and `2`, measured signals `5`
and `3`. -/
def tracksAB : List Track := [⟨1, 5⟩, ⟨2, 3⟩]

/-- The empty parametrization-file path (CCDB mode). -/
def emptyPath : String := ""

/-- A concrete parametrization-file path. -/
def paramFile : String := "params.root"

/-- The default signal parametrization name (pidTPC.cxx:60). -/
def nameSignal : String := "BetheBloch"

/-- The default sigma parametrization name (pidTPC.cxx:61). -/
def nameSigma : String := "TPCReso"

/-- The default CCDB path prefix (pidTPC.cxx:63). -/
def basePath : String := "Analysis/PID/TPC"

/-! ### Claims -/

/-- Claim C2: for a species whose configured flag is auto (`-1`), the
resolved flag after `init` equals `1` exactly when the species' output
table name occurs among the input bindings of some device of the
running workflow. -/
theorem c2_auto_enable_iff_requested (devices : List (List String)) (c : Cfg)
    (s : Species) (h : flagOf c s = -1) :
    flagOf (initCfg devices c) s = 1 ↔ tableName s ∈ devices.flatten := by
  rw [flagOf_initCfg, h]
  constructor
  · intro h1
    by_contra hm
    rw [if_neg (fun hc => hm hc.1)] at h1
    exact absurd h1 (by norm_num)
  · intro hm
    rw [if_pos ⟨hm, by norm_num⟩]

/-- Witness for C2, the spec's Scenario C: all flags auto and demand
set containing only the kaon table leaves exactly the kaon flag at `1`
and all eight other species disabled. -/
theorem c2_auto_enable_iff_requested_witness :
    flagOf (initCfg demandKa allAuto) Species.ka = 1
    ∧ flagOf (initCfg demandKa allAuto) Species.el ≠ 1
    ∧ flagOf (initCfg demandKa allAuto) Species.mu ≠ 1
    ∧ flagOf (initCfg demandKa allAuto) Species.pi ≠ 1
    ∧ flagOf (initCfg demandKa allAuto) Species.pr ≠ 1
    ∧ flagOf (initCfg demandKa allAuto) Species.de ≠ 1
    ∧ flagOf (initCfg demandKa allAuto) Species.tr ≠ 1
    ∧ flagOf (initCfg demandKa allAuto) Species.he ≠ 1
    ∧ flagOf (initCfg demandKa allAuto) Species.al ≠ 1 := by
  refine ⟨(c2_auto_enable_iff_requested demandKa allAuto Species.ka rfl).mpr (by decide),
    fun h => absurd ((c2_auto_enable_iff_requested demandKa allAuto Species.el rfl).mp h) (by decide),
    fun h => absurd ((c2_auto_enable_iff_requested demandKa allAuto Species.mu rfl).mp h) (by decide),
    fun h => absurd ((c2_auto_enable_iff_requested demandKa allAuto Species.pi rfl).mp h) (by decide),
    fun h => absurd ((c2_auto_enable_iff_requested demandKa allAuto Species.pr rfl).mp h) (by decide),
    fun h => absurd ((c2_auto_enable_iff_requested demandKa allAuto Species.de rfl).mp h) (by decide),
    fun h => absurd ((c2_auto_enable_iff_requested demandKa allAuto Species.tr rfl).mp h) (by decide),
    fun h => absurd ((c2_auto_enable_iff_requested demandKa allAuto Species.he rfl).mp h) (by decide),
    fun h => absurd ((c2_auto_enable_iff_requested demandKa allAuto Species.al rfl).mp h) (by decide)⟩

/-- Claim C7: a species whose configured flag is forced-on (`1`) stays
enabled after `init` whatever the workflow inputs are, and its table is
filled with one entry per track of the batch. -/
theorem c7_forced_on (devices : List (List String)) (c : Cfg) (s : Species)
    (h : flagOf c s = 1) (p : RespParams) (vmin w : ℚ) (nb : ℤ)
    (tracks : List Track) :
    flagOf (initCfg devices c) s = 1
    ∧ (processTables (initCfg devices c) p vmin w nb tracks s).length =
        tracks.length := by
  have h1 : flagOf (initCfg devices c) s = 1 := by
    rw [flagOf_initCfg, h]
    split_ifs <;> rfl
  refine ⟨h1, ?_⟩
  rw [processTables_enabled (initCfg devices c) p vmin w nb tracks s h1,
    List.length_map]

/-- Witness for C7: the kaon flag forced on while the workflow demands
only the electron table; the kaon table is still produced, one code per
track. -/
theorem c7_forced_on_witness :
    flagOf cfgKaOn Species.ka = 1
    ∧ tableName Species.ka ∉ demandEl.flatten
    ∧ flagOf (initCfg demandEl cfgKaOn) Species.ka = 1
    ∧ (processTables (initCfg demandEl cfgKaOn) pZero (-10) (1/10) 200
        tracksAB Species.ka).length = 2 := by
  have h := c7_forced_on demandEl cfgKaOn Species.ka rfl pZero (-10) (1/10) 200 tracksAB
  exact ⟨rfl, by decide, h.1, h.2.trans rfl⟩

/-- Claim C10: a species whose configured flag is an integer greater
than `1` has its table produced exactly when its output name occurs
among the workflow inputs: a matching input normalizes the flag to `1`,
while without a match the flag keeps its original value, fails the
equality-with-one check of `process`, and the table stays empty. -/
theorem c10_out_of_range_flag (devices : List (List String)) (c : Cfg)
    (s : Species) (k : Int) (hk : flagOf c s = k) (h1 : 1 < k)
    (p : RespParams) (vmin w : ℚ) (nb : ℤ) (tracks : List Track) :
    (tableName s ∈ devices.flatten →
      flagOf (initCfg devices c) s = 1
      ∧ (processTables (initCfg devices c) p vmin w nb tracks s).length =
          tracks.length)
    ∧ (tableName s ∉ devices.flatten →
      flagOf (initCfg devices c) s = k
      ∧ processTables (initCfg devices c) p vmin w nb tracks s = []) := by
  constructor
  · intro hm
    have hf : flagOf (initCfg devices c) s = 1 := by
      rw [flagOf_initCfg, hk, if_pos ⟨hm, by omega⟩]
    refine ⟨hf, ?_⟩
    rw [processTables_enabled (initCfg devices c) p vmin w nb tracks s hf,
      List.length_map]
  · intro hm
    have hf : flagOf (initCfg devices c) s = k := by
      rw [flagOf_initCfg, hk, if_neg (fun hc => hm hc.1)]
    refine ⟨hf, ?_⟩
    show makeTable (flagOf (initCfg devices c) s) _ _ _ _ _ = _
    rw [hf]
    exact makeTable_ne_one k (by omega) _ _ _ _ _

/-- Witness for C10: a kaon flag of `2` is normalized to `1` and the
table filled when the kaon table is demanded, while with only the
electron table demanded the flag keeps the value `2` and the kaon table
stays empty. -/
theorem c10_out_of_range_flag_witness :
    flagOf cfgKa2 Species.ka = 2
    ∧ flagOf (initCfg demandKa cfgKa2) Species.ka = 1
    ∧ (processTables (initCfg demandKa cfgKa2) pZero (-10) (1/10) 200
        tracksAB Species.ka).length = 2
    ∧ flagOf (initCfg demandEl cfgKa2) Species.ka = 2
    ∧ processTables (initCfg demandEl cfgKa2) pZero (-10) (1/10) 200
        tracksAB Species.ka = [] := by
  have hA := c10_out_of_range_flag demandKa cfgKa2 Species.ka 2 rfl (by norm_num)
    pZero (-10) (1/10) 200 tracksAB
  have hB := c10_out_of_range_flag demandEl cfgKa2 Species.ka 2 rfl (by norm_num)
    pZero (-10) (1/10) 200 tracksAB
  have h1 := hA.1 (by decide)
  have h2 := hB.2 (by decide)
  exact ⟨rfl, h1.1, h1.2.trans rfl, h2.1, h2.2⟩

/-- Claim C8: with an empty parametrization-file path both
parametrizations are fetched from the CCDB at
`base-path + "/" + parametrization-name` for the configured timestamp;
with a non-empty path both are loaded by name from that file. -/
theorem c8_param_loading (fname signalname sigmaname base : String) (ts : Int) :
    (fname.isEmpty = true →
      loadActions fname signalname sigmaname base ts =
        [LoadAction.fromCCDB (base ++ "/" ++ signalname) ts Kind.kSignal,
         LoadAction.fromCCDB (base ++ "/" ++ sigmaname) ts Kind.kSigma])
    ∧ (fname.isEmpty = false →
      loadActions fname signalname sigmaname base ts =
        [LoadAction.fromFile fname signalname Kind.kSignal,
         LoadAction.fromFile fname sigmaname Kind.kSigma]) := by
  constructor <;> intro h <;> simp [loadActions, h]

/-- Witness for C8: the default configuration (empty file path) loads
both parametrizations from the CCDB, and a concrete file path loads
both from that file. -/
theorem c8_param_loading_witness :
    loadActions emptyPath nameSignal nameSigma basePath (-1) =
      [LoadAction.fromCCDB (basePath ++ "/" ++ nameSignal) (-1) Kind.kSignal,
       LoadAction.fromCCDB (basePath ++ "/" ++ nameSigma) (-1) Kind.kSigma]
    ∧ loadActions paramFile nameSignal nameSigma basePath (-1) =
      [LoadAction.fromFile paramFile nameSignal Kind.kSignal,
       LoadAction.fromFile paramFile nameSigma Kind.kSigma] :=
⟨(c8_param_loading emptyPath nameSignal nameSigma basePath (-1)).1 rfl,
 (c8_param_loading paramFile nameSignal nameSigma basePath (-1)).2 rfl⟩

/-- Claim C9: `process` leaves the resolved enablement flags and the
loaded detector-response parametrizations unchanged; it only writes the
output tables. -/
theorem c9_process_frame (st : TaskState) (vmin w : ℚ) (nb : ℤ)
    (tracks : List Track) :
    (processState st vmin w nb tracks).cfg = st.cfg
    ∧ (processState st vmin w nb tracks).params = st.params :=
⟨rfl, rfl⟩

/-- Counterexample to C1 as stated: with every flag forced off, the
kaon table is still among the sent output sequences of a batch — it is
sent empty (pidTPC.cxx:16: "the others are sent empty"), not absent. -/
theorem c1_counterexample :
    flagOf cfgOff Species.ka ≠ 1
    ∧ (Species.ka, ([] : List (Option ℤ))) ∈
        sentTables cfgOff pZero (-10) (1/10) 200 [] := by
  refine ⟨by decide, ?_⟩
  rw [sentTables]
  exact List.mem_map.mpr ⟨Species.ka, mem_allSpecies Species.ka, rfl⟩

/-- Claim C1 as amended: a disabled species' output sequence exists but
is empty — the table is sent with zero rows, so "not computed" is not
distinguishable from "computed but empty" by the sequence's absence. -/
theorem c1_disabled_sent_empty (c : Cfg) (p : RespParams) (vmin w : ℚ)
    (nb : ℤ) (tracks : List Track) (s : Species) (h : flagOf c s ≠ 1) :
    processTables c p vmin w nb tracks s = []
    ∧ (s, ([] : List (Option ℤ))) ∈ sentTables c p vmin w nb tracks := by
  have h1 : processTables c p vmin w nb tracks s = [] :=
    makeTable_ne_one _ h _ _ _ _ _
  refine ⟨h1, ?_⟩
  rw [sentTables]
  exact List.mem_map.mpr ⟨s, mem_allSpecies s, by rw [h1]⟩

/-- Witness for the amended C1: the proton species, disabled by a zero
flag, still appears among the sent tables of a non-empty batch, with an
empty row sequence. -/
theorem c1_disabled_sent_empty_witness :
    flagOf cfgOff Species.pr ≠ 1
    ∧ processTables cfgOff pZero (-10) (1/10) 200 tracksAB Species.pr = []
    ∧ (Species.pr, ([] : List (Option ℤ))) ∈
        sentTables cfgOff pZero (-10) (1/10) 200 tracksAB := by
  have h := c1_disabled_sent_empty cfgOff pZero (-10) (1/10) 200 tracksAB
    Species.pr (by decide)
  exact ⟨by decide, h.1, h.2⟩

/-- Claim C6: an enabled species' output sequence has exactly one entry
per input track, and its i-th entry is the packed evaluation of the
i-th input track. -/
theorem c6_order_preservation (c : Cfg) (p : RespParams) (vmin w : ℚ)
    (nb : ℤ) (tracks : List Track) (s : Species) (hs : flagOf c s = 1) :
    (processTables c p vmin w nb tracks s).length = tracks.length
    ∧ ∀ i (hi : i < tracks.length),
        (processTables c p vmin w nb tracks s)[i]? =
          some (Option.map (fun sep => encode sep vmin w nb)
            (evaluate (p.signalFn s) (p.sigmaFn s) (tracks.get ⟨i, hi⟩))) := by
  have hmap := processTables_enabled c p vmin w nb tracks s hs
  constructor
  · rw [hmap, List.length_map]
  · intro i hi
    rw [hmap]
    simp [List.getElem?_map, List.getElem?_eq_getElem hi, List.get_eq_getElem]

/-- Witness for C6: a two-track batch for the enabled kaon species
gives a two-entry sequence whose first entry is the code of the first
track's separation. -/
theorem c6_order_preservation_witness :
    (processTables cfgKaOn pZero (-10) (1/10) 200 tracksAB Species.ka).length = 2
    ∧ (processTables cfgKaOn pZero (-10) (1/10) 200 tracksAB Species.ka)[0]? =
        some (some 150) := by
  have h := c6_order_preservation cfgKaOn pZero (-10) (1/10) 200 tracksAB
    Species.ka rfl
  refine ⟨h.1.trans rfl, ?_⟩
  have h0 := h.2 0 (by norm_num [tracksAB])
  rw [h0]
  norm_num [tracksAB, pZero, evaluate, encode, round_eq]

/-- Claim C4: a track whose response evaluation errs (zero expected
sigma or a non-finite parametrization value) gets the explicit invalid
marker in the output sequence, never a plausible code, while every
sibling track with a valid evaluation still gets its proper code. -/
theorem c4_invalid_marker (c : Cfg) (p : RespParams) (vmin w : ℚ) (nb : ℤ)
    (tracks : List Track) (s : Species) (hs : flagOf c s = 1) (i : ℕ)
    (hi : i < tracks.length)
    (herr : p.sigmaFn s ((tracks.get ⟨i, hi⟩).innerMomentum) = some 0
            ∨ p.signalFn s ((tracks.get ⟨i, hi⟩).innerMomentum) = none
            ∨ p.sigmaFn s ((tracks.get ⟨i, hi⟩).innerMomentum) = none) :
    (processTables c p vmin w nb tracks s)[i]? = some none
    ∧ ∀ j (hj : j < tracks.length) v,
        evaluate (p.signalFn s) (p.sigmaFn s) (tracks.get ⟨j, hj⟩) = some v →
        (processTables c p vmin w nb tracks s)[j]? =
          some (some (encode v vmin w nb)) := by
  have hmap := processTables_enabled c p vmin w nb tracks s hs
  constructor
  · have herr2 : evaluate (p.signalFn s) (p.sigmaFn s) (tracks.get ⟨i, hi⟩) = none :=
      evaluate_none herr
    rw [hmap]
    simp only [List.getElem?_map, List.getElem?_eq_getElem hi, Option.map_some]
    simpa [List.get_eq_getElem] using herr2
  · intro j hj v hv
    rw [hmap]
    simp [List.getElem?_map, List.getElem?_eq_getElem hj]
    simp [List.get_eq_getElem] at hv
    simp [hv]

/-- Witness for C4, the spec's Scenario D: with a sigma parametrization
vanishing at the first track's momentum, the first entry is the invalid
marker and the second track still gets its code. -/
theorem c4_invalid_marker_witness :
    (processTables cfgKaOn pBad (-10) (1/10) 200 tracksAB Species.ka)[0]? =
      some none
    ∧ (processTables cfgKaOn pBad (-10) (1/10) 200 tracksAB Species.ka)[1]? =
        some (some (encode 3 (-10) (1/10) 200)) := by
  have h := c4_invalid_marker cfgKaOn pBad (-10) (1/10) 200 tracksAB Species.ka
    rfl 0 (by norm_num [tracksAB]) (Or.inl (by norm_num [tracksAB, pBad]))
  exact ⟨h.1, h.2 1 (by norm_num [tracksAB]) 3 (by norm_num [tracksAB, pBad, evaluate])⟩

/-! ### Codec bounds -/

/-- Any value at or below the range minimum encodes to the bottom
code `0`. -/
lemma encode_le_vmin (v vmin w : ℚ) (nb : ℤ) (hw : 0 < w) (_hnb : 1 ≤ nb)
    (hv : v ≤ vmin) : encode v vmin w nb = 0 := by
  have hx : (v - vmin) / w ≤ 0 :=
    div_nonpos_iff.mpr (Or.inr ⟨by linarith, hw.le⟩)
  have hr : round ((v - vmin) / w) ≤ 0 := round_nonpos hx
  rw [encode]
  omega

/-- Any value at or above the range maximum `vmin + nb * w` encodes to
the top code `nb - 1`. -/
lemma encode_ge_vmax (v vmin w : ℚ) (nb : ℤ) (hw : 0 < w) (hnb : 1 ≤ nb)
    (hv : vmin + (nb : ℚ) * w ≤ v) : encode v vmin w nb = nb - 1 := by
  have hx : (nb : ℚ) ≤ (v - vmin) / w := by
    rw [le_div_iff₀ hw]
    linarith
  have hr : nb ≤ round ((v - vmin) / w) := by
    rw [round_eq]
    exact Int.le_floor.mpr (by linarith)
  rw [encode]
  omega

/-- Decoding error in terms of a bound on the distance between the code
and the exact bin coordinate `(v - vmin) / w`. -/
lemma decode_err_le (v vmin w : ℚ) (hw : 0 < w) (c : ℤ) (b : ℚ)
    (hb : |(c : ℚ) - (v - vmin) / w| ≤ b) :
    |decode c vmin w - v| ≤ b * w := by
  have hxw : (v - vmin) / w * w = v - vmin := div_mul_cancel₀ _ hw.ne'
  have herr : decode c vmin w - v = ((c : ℚ) - (v - vmin) / w) * w := by
    rw [decode]
    linear_combination hxw
  rw [herr, abs_mul, abs_of_pos hw]
  exact mul_le_mul_of_nonneg_right hb hw.le

/-- Counterexample to C3 as stated: with range `[-10, 10]` and bin
width `1/10` (200 bins), the in-range value `v = 10` encodes to the
clamped top code `199`, which decodes to `9.9`, an error of `1/10` —
more than half a bin width. -/
theorem c3_counterexample :
    (-10 : ℚ) ≤ 10 ∧ (10 : ℚ) ≤ -10 + ((200 : ℤ) : ℚ) * (1 / 10)
    ∧ ¬ (|decode (encode 10 (-10) (1 / 10) 200) (-10) (1 / 10) - 10| ≤ (1 / 10) / 2) := by
  refine ⟨by norm_num, by norm_num, ?_⟩
  norm_num [encode, decode, round_eq, abs_of_pos]

/-- Claim C3 as amended: the round-trip error is at most half a bin
width for `v` in `[min, max - binWidth/2]`; over the full `[min, max]`
the clamp to the top code can double the error in the last half bin,
but it never exceeds one bin width. -/
theorem c3_roundtrip (v vmin w : ℚ) (nb : ℤ) (hw : 0 < w) (hnb : 1 ≤ nb)
    (hv1 : vmin ≤ v) :
    (v ≤ vmin + (nb : ℚ) * w - w / 2 →
      |decode (encode v vmin w nb) vmin w - v| ≤ w / 2)
    ∧ (v ≤ vmin + (nb : ℚ) * w →
      |decode (encode v vmin w nb) vmin w - v| ≤ w) := by
  have hx0 : 0 ≤ (v - vmin) / w := div_nonneg (by linarith) hw.le
  have hr0 : 0 ≤ round ((v - vmin) / w) := round_nonneg hx0
  have hrabs := abs_le.mp (abs_sub_round ((v - vmin) / w))
  constructor
  · intro hv2
    have hx1 : (v - vmin) / w ≤ (nb : ℚ) - 1 / 2 := by
      rw [div_le_iff₀ hw]
      nlinarith
    have hrle : round ((v - vmin) / w) ≤ nb :=
      round_le_int (by linarith)
    by_cases hc : round ((v - vmin) / w) ≤ nb - 1
    · have hcc : encode v vmin w nb = round ((v - vmin) / w) := by
        rw [encode]
        omega
      rw [hcc]
      calc |decode (round ((v - vmin) / w)) vmin w - v|
          ≤ 1 / 2 * w := by
            refine decode_err_le v vmin w hw _ _ ?_
            rw [abs_sub_comm]
            exact abs_sub_round _
        _ = w / 2 := by ring
    · have hc2 : round ((v - vmin) / w) = nb := by omega
      have hcc : encode v vmin w nb = nb - 1 := by
        rw [encode]
        omega
      have hxlow : (nb : ℚ) - 1 / 2 ≤ (v - vmin) / w := by
        have : ((round ((v - vmin) / w) : ℤ) : ℚ) = (nb : ℚ) := by
          exact_mod_cast congrArg (fun z : ℤ => (z : ℚ)) hc2
        linarith [hrabs.2, this]
      have hxeq : (v - vmin) / w = (nb : ℚ) - 1 / 2 := le_antisymm hx1 hxlow
      rw [hcc]
      calc |decode (nb - 1) vmin w - v|
          ≤ 1 / 2 * w := by
            refine decode_err_le v vmin w hw _ _ ?_
            rw [hxeq]
            push_cast
            rw [show ((nb : ℚ) - 1) - ((nb : ℚ) - 1 / 2) = -(1 / 2) by ring]
            rw [abs_neg, abs_of_pos] ; norm_num
        _ = w / 2 := by ring
  · intro hv2
    have hx1 : (v - vmin) / w ≤ (nb : ℚ) := by
      rw [div_le_iff₀ hw]
      nlinarith
    have hrle : round ((v - vmin) / w) ≤ nb := round_le_int hx1
    by_cases hc : round ((v - vmin) / w) ≤ nb - 1
    · have hcc : encode v vmin w nb = round ((v - vmin) / w) := by
        rw [encode]
        omega
      rw [hcc]
      calc |decode (round ((v - vmin) / w)) vmin w - v|
          ≤ 1 / 2 * w := by
            refine decode_err_le v vmin w hw _ _ ?_
            rw [abs_sub_comm]
            exact abs_sub_round _
        _ ≤ w := by linarith
    · have hc2 : round ((v - vmin) / w) = nb := by omega
      have hcc : encode v vmin w nb = nb - 1 := by
        rw [encode]
        omega
      have hxlow : (nb : ℚ) - 1 / 2 ≤ (v - vmin) / w := by
        have : ((round ((v - vmin) / w) : ℤ) : ℚ) = (nb : ℚ) := by
          exact_mod_cast congrArg (fun z : ℤ => (z : ℚ)) hc2
        linarith [hrabs.2, this]
      rw [hcc]
      calc |decode (nb - 1) vmin w - v|
          ≤ 1 * w := by
            refine decode_err_le v vmin w hw _ _ ?_
            push_cast
            rw [abs_le]
            constructor <;> linarith
        _ = w := by ring

/-- Witness for the amended C3, the spec's Scenario A: `v = 2.345` in
range `[-10, 10]` with bin width `1/10` decodes back within `1/20`. -/
theorem c3_roundtrip_witness :
    |decode (encode (2345 / 1000) (-10) (1 / 10) 200) (-10) (1 / 10) - 2345 / 1000|
      ≤ (1 / 10) / 2 := by
  have h := c3_roundtrip (2345 / 1000) (-10) (1 / 10) 200 (by norm_num)
    (by norm_num) (by norm_num)
  have h2 := h.1 (by norm_num)
  calc |decode (encode (2345 / 1000) (-10) (1 / 10) 200) (-10) (1 / 10) - 2345 / 1000|
      ≤ (1 / 10) / 2 := h2

/-- Claim C5: values below the range minimum encode to the same code
as the minimum, values above the range maximum encode to the same code
as the maximum, and a saturated value decodes to the boundary's
representative value. -/
theorem c5_saturation (v vmin w : ℚ) (nb : ℤ) (hw : 0 < w) (hnb : 1 ≤ nb) :
    (v ≤ vmin → encode v vmin w nb = encode vmin vmin w nb)
    ∧ (vmin + (nb : ℚ) * w ≤ v →
        encode v vmin w nb = encode (vmin + (nb : ℚ) * w) vmin w nb
        ∧ decode (encode v vmin w nb) vmin w =
            decode (encode (vmin + (nb : ℚ) * w) vmin w nb) vmin w) := by
  constructor
  · intro hv
    rw [encode_le_vmin v vmin w nb hw hnb hv,
      encode_le_vmin vmin vmin w nb hw hnb le_rfl]
  · intro hv
    have h1 := encode_ge_vmax v vmin w nb hw hnb hv
    have h2 := encode_ge_vmax (vmin + (nb : ℚ) * w) vmin w nb hw hnb le_rfl
    rw [h1, h2]
    exact ⟨rfl, rfl⟩

/-- Witness for C5, the spec's Scenario B: in range `[-10, 10]` with
bin width `1/10`, the value `-110` encodes like the minimum, and the
far-out separation `57` encodes to the top code `199` — the same code
as the maximum — and decodes to the boundary representative `9.9`. -/
theorem c5_saturation_witness :
    encode (-110) (-10) (1 / 10) 200 = encode (-10) (-10) (1 / 10) 200
    ∧ encode 57 (-10) (1 / 10) 200 =
        encode (-10 + ((200 : ℤ) : ℚ) * (1 / 10)) (-10) (1 / 10) 200
    ∧ decode (encode 57 (-10) (1 / 10) 200) (-10) (1 / 10) =
        decode (encode (-10 + ((200 : ℤ) : ℚ) * (1 / 10)) (-10) (1 / 10) 200) (-10) (1 / 10)
    ∧ encode 57 (-10) (1 / 10) 200 = 199
    ∧ decode (encode 57 (-10) (1 / 10) 200) (-10) (1 / 10) = 99 / 10 := by
  have hA := c5_saturation (-110) (-10) (1 / 10) 200 (by norm_num) (by norm_num)
  have hB := c5_saturation 57 (-10) (1 / 10) 200 (by norm_num) (by norm_num)
  have hB2 := hB.2 (by push_cast; norm_num)
  refine ⟨hA.1 (by norm_num), hB2.1, hB2.2, ?_, ?_⟩
  · norm_num [encode, round_eq]
  · norm_num [encode, decode, round_eq]

end PidTPC
